import Mathlib

/-!
Verification of `static_wb_map_creator` (image → WorldBox `.wbox` save file).

The development shallowly embeds the relevant JavaScript source:
* `js/saveGenerator.js` / its current revision: `SaveGenerator.generateSaveData`
  and `SaveGenerator.generateRLECompressedTiles`;
* `js/imageProcessor.js`: the crop-dimension computation and the exact-match
  pixel classification with its unmatched-color tally;
* JS `Set` / `Map` container semantics are modelled as insertion-ordered lists.

A tile grid is a `List (List String)`: the outer list is the rows (`y` from top
to bottom), each row the tile-type identifiers for `x` from left to right,
exactly as the JS code indexes `tiles[y][x]`.
-/

set_option maxHeartbeats 1000000

namespace WbMap

/-- JS `Set.add`: a `Set` of strings iterated in insertion order is a duplicate
free list; `add` appends the element iff it is not yet present. -/
def jsSetAdd (l : List String) (x : String) : List String :=
  if x ∈ l then l else l ++ [x]

/-- The `tileMap` construction of `SaveGenerator.generateSaveData`: scan the
grid row-major (`for y … for x … tileMapSet.add(tiles[y][x])`), then
`Array.from(tileMapSet)` which lists the distinct values in insertion order. -/
def buildTileMap (tiles : List (List String)) : List String :=
  tiles.foldl (fun acc row => row.foldl jsSetAdd acc) []

/-- The `tileTypeToIndex` map of `generateSaveData`: each tile type maps to its
position in `tileMap` (built by `tileMap.forEach((t, i) => set(t, i))`). -/
def tileIndex (tileMap : List String) (t : String) : Nat :=
  tileMap.indexOf t

/-- The inner loop of `SaveGenerator.generateRLECompressedTiles` over one row.
State: `last` is `lastTileType` (`none` = JS `null`), `count` is `tileCount`.
For each cell: if it equals `last` and `count > 0`, extend the run; otherwise
flush the pending run (when `count > 0` and `last ≠ null`) and start a new run
of length 1; after the last cell the pending run is flushed the same way.
Returns the pair `(rowTileArray, rowTileAmounts)`. -/
def rleRowLoop (f : String → Nat) :
    List String → Option String → Nat → List Nat × List Nat
  | [], none, _ => ([], [])
  | [], some t, count => if 0 < count then ([f t], [count]) else ([], [])
  | c :: rest, last, count =>
    if last = some c ∧ 0 < count then
      rleRowLoop f rest last (count + 1)
    else
      match last with
      | some t =>
        if 0 < count then
          (f t :: (rleRowLoop f rest (some c) 1).1,
           count :: (rleRowLoop f rest (some c) 1).2)
        else
          rleRowLoop f rest (some c) 1
      | none => rleRowLoop f rest (some c) 1

/-- `SaveGenerator.generateRLECompressedTiles`: one `(rowTileArray,
rowTileAmounts)` pair per grid row, each produced by the row loop started with
`lastTileType = null`, `tileCount = 0`. -/
def generateRLECompressedTiles (f : String → Nat) (tiles : List (List String)) :
    List (List Nat) × List (List Nat) :=
  (tiles.map fun row => (rleRowLoop f row none 0).1,
   tiles.map fun row => (rleRowLoop f row none 0).2)

/-- RLE decoding of one row, as the spec describes it: expand each
`(tileArray ordinal, tileAmounts count)` pair into `count` repetitions of the
catalog entry at that ordinal. -/
def decodeRow (catalog : List String) : List Nat → List Nat → List String
  | i :: is, n :: ns => List.replicate n (catalog.getD i "") ++ decodeRow catalog is ns
  | _, _ => []

/-- RLE decoding of a whole grid, row by row. -/
def decodeRLE (catalog : List String)
    (tileArray tileAmounts : List (List Nat)) : List (List String) :=
  List.zipWith (decodeRow catalog) tileArray tileAmounts

/-- The spec's characterisation of a `TileCatalog`: the distinct values of a
list in first-encounter order (each element, followed by the catalog of the
remainder with that element removed). Used to compare with `buildTileMap`. -/
def firstDedup : List String → List String
  | [] => []
  | x :: xs => x :: firstDedup (xs.filter fun y => y ≠ x)
termination_by l => l.length
decreasing_by
  simp only [List.length_cons]
  exact Nat.lt_succ_of_le (List.length_filter_le _ _)

-- sanity checks on concrete data
example : buildTileMap [["a", "b"], ["b", "a"]] = ["a", "b"] := by decide
example :
    rleRowLoop (tileIndex ["a", "b"]) ["a", "a", "b", "a"] none 0
      = ([0, 1, 0], [2, 1, 1]) := by decide
example : rleRowLoop (tileIndex []) [] none 0 = ([], []) := by decide
example :
    decodeRow ["a", "b"] [0, 1, 0] [2, 1, 1] = ["a", "a", "b", "a"] := by decide
example : firstDedup ["a", "b", "b", "a", "c"] = ["a", "b", "c"] := by
  simp [firstDedup]

/-! ### `SaveGenerator.generateSaveData` (current revision, saveVersion 17) -/

/-- JS `x || d` for numbers: `x` when it is present and non-zero (`0` is falsy),
else the default `d`. -/
def jsOrInt (o : Option Int) (d : Int) : Int :=
  match o with
  | none => d
  | some v => if v = 0 then d else v

/-- JS `s || d` for strings: `s` when it is present and non-empty (`""` is
falsy), else the default `d`. -/
def jsOrString (o : Option String) (d : String) : String :=
  match o with
  | none => d
  | some s => if s = "" then d else s

/-- The `statsConfig` argument of `generateSaveData`; every field is optional
(`none` models a missing JS property). -/
structure StatsConfig where
  playerName : Option String := none
  population : Option Int := none
  worldTime : Option Int := none
  deaths : Option Int := none
  creaturesBorn : Option Int := none
deriving Repr, DecidableEq

/-- The `mapStats` sub-record of the save document. -/
structure MapStats where
  population : Int
  deaths : Int
  player_name : String
  world_time : Int
deriving Repr, DecidableEq

/-- The fields of the `savedMap` object that this development reasons about
(the remaining fields are constants: camera defaults, `worldLaws: {}` and the
fixed empty entity-collection arrays). -/
structure SavedMap where
  saveVersion : Nat
  width : Nat
  height : Nat
  mapStats : MapStats
  tileMap : List String
  tileArray : List (List Nat)
  tileAmounts : List (List Nat)
  creaturesBorn : Int
deriving Repr, DecidableEq

/-- `SaveGenerator.generateSaveData(tileWidth, tileHeight, tiles, statsConfig)`:
validate that both tile dimensions are multiples of 64 (throwing otherwise,
modelled as `Except.error`), convert to zone units, build the tile catalog and
the index map, RLE-compress the grid, and assemble the save document. -/
def generateSaveData (tileWidth tileHeight : Nat) (tiles : List (List String))
    (statsConfig : StatsConfig) : Except String SavedMap :=
  if tileWidth % 64 ≠ 0 ∨ tileHeight % 64 ≠ 0 then
    Except.error "tile dimensions must be multiples of 64"
  else
    let zoneWidth := tileWidth / 64
    let zoneHeight := tileHeight / 64
    let tileMap := buildTileMap tiles
    let rle := generateRLECompressedTiles (tileIndex tileMap) tiles
    Except.ok
      { saveVersion := 17
        width := zoneWidth
        height := zoneHeight
        mapStats :=
          { population := jsOrInt statsConfig.population 0
            deaths := jsOrInt statsConfig.deaths 0
            player_name := jsOrString statsConfig.playerName "The Creator"
            world_time := jsOrInt statsConfig.worldTime 0 * 5 * 60 }
        tileMap := tileMap
        tileArray := rle.1
        tileAmounts := rle.2
        creaturesBorn := jsOrInt statsConfig.creaturesBorn 0 }

/-! ### `ImageProcessor.processImage`: crop dimensions and the canvas draw -/

/-- The crop-dimension computation of `ImageProcessor.processImage`:
`tileWidth = floor(W/64)*64`, `tileHeight = floor(H/64)*64`, and a
size-too-small error exactly when either result is zero. -/
def cropDims (originalWidth originalHeight : Nat) : Except String (Nat × Nat) :=
  let tileWidth := originalWidth / 64 * 64
  let tileHeight := originalHeight / 64 * 64
  if tileWidth = 0 ∨ tileHeight = 0 then
    Except.error "image too small, need at least 64 by 64 pixels"
  else
    Except.ok (tileWidth, tileHeight)

/-- Pixel-sampling model of the 5-argument canvas call
`ctx.drawImage(img, 0, 0, tileWidth, tileHeight)` that the code performs: this
form scales the ENTIRE source image (width `srcW`) into the destination
rectangle (width `dstW`), so under nearest-neighbour sampling the destination
column `x` reads source column `floor(x * srcW / dstW)` (browsers additionally
interpolate neighbouring pixels by default). The same applies to rows. A true
crop would be the 9-argument form and would read source column `x` itself. -/
def drawImageSrcCoord (srcLen dstLen x : Nat) : Nat :=
  x * srcLen / dstLen

/-! ### `ImageProcessor.processImage`: exact-match classification and tally -/

/-- JS `Map` iterated in insertion order, modelled as an association list with
at most one entry per key; `Map.get` returns the first (only) binding. -/
def jsMapGet (m : List (String × Nat)) (k : String) : Option Nat :=
  m.lookup k

/-- JS `Map.set`: overwrite the existing binding in place (the key keeps its
original position in iteration order), otherwise append a new binding. -/
def jsMapSet : List (String × Nat) → String → Nat → List (String × Nat)
  | [], k, v => [(k, v)]
  | (a, b) :: rest, k, v =>
    if a = k then (k, v) :: rest else (a, b) :: jsMapSet rest k v

/-- One iteration of the pixel loop of `ImageProcessor.processImage` (the
classification part): look the pixel's hex color up in `colorMap`; on a falsy
result (absent, or bound to the empty string) bump the color's entry in the
`unmatchedColors` tally and fall back to `'soil_low'`. Returns the chosen tile
type and the updated tally. -/
def classifyPixel (colorMap : List (String × String))
    (unmatchedColors : List (String × Nat)) (colorHex : String) :
    String × List (String × Nat) :=
  match colorMap.lookup colorHex with
  | some tileType =>
    if tileType = "" then
      ("soil_low",
        jsMapSet unmatchedColors colorHex
          ((jsMapGet unmatchedColors colorHex).getD 0 + 1))
    else
      (tileType, unmatchedColors)
  | none =>
    ("soil_low",
      jsMapSet unmatchedColors colorHex
        ((jsMapGet unmatchedColors colorHex).getD 0 + 1))

/-! ### Tolerance-based color matching (modelled from the spec)

The tolerance-aware revision of `ImageProcessor.processImage` is not part of
this source snapshot: `js/main.js` calls `ImageProcessor.processImage(file,
colorMap, toleranceLevel, cb)` with a tolerance argument, but the
`js/imageProcessor.js` present here is an earlier exact-match-only revision
whose `processImage` has no tolerance parameter. The matcher is therefore
modelled from the spec's words. -/

/-- Modelled from the spec: per-channel distance over the 0–255 range
(absolute difference of two channel values). -/
def channelDist (a b : Nat) : Nat :=
  max (a - b) (b - a)

/-- Modelled from the spec: component-wise maximum distance between two RGB
triples over the 0–255 channel range (the spec allows Euclidean or
component-wise maximum; the latter is chosen). -/
def colorDist (c1 c2 : Nat × Nat × Nat) : Nat :=
  max (channelDist c1.1 c2.1)
    (max (channelDist c1.2.1 c2.2.1) (channelDist c1.2.2 c2.2.2))

/-- Modelled from the spec: the distance threshold for tolerance `t ∈ [0,100]`,
the 0–255 channel range scaled by `t` percent. -/
def toleranceThreshold (t : Nat) : Nat :=
  t * 255 / 100

/-- Modelled from the spec: scan the ColorTable in iteration order and keep the
entry of minimum distance to the query among those within the threshold, an
earlier entry winning ties. Returns `none` when no entry is within the
threshold, else the winning entry together with its distance. -/
def bestMatch (q : Nat × Nat × Nat) (thr : Nat) :
    List ((Nat × Nat × Nat) × String) →
      Option (Nat × ((Nat × Nat × Nat) × String))
  | [] => none
  | e :: rest =>
    match bestMatch q thr rest with
    | none =>
      if colorDist q e.1 ≤ thr then some (colorDist q e.1, e) else none
    | some (d2, e2) =>
      if colorDist q e.1 ≤ thr ∧ colorDist q e.1 ≤ d2 then
        some (colorDist q e.1, e)
      else
        some (d2, e2)

/-- Modelled from the spec: tolerance classification of a query color with no
exact match — the best in-threshold table entry's tile type, or the default
`"soil_low"` when no entry is within the threshold. -/
def classifyTolerant (q : Nat × Nat × Nat) (t : Nat)
    (table : List ((Nat × Nat × Nat) × String)) : String :=
  match bestMatch q (toleranceThreshold t) table with
  | some be => be.2.2
  | none => "soil_low"

-- sanity checks
example :
    bestMatch (8, 8, 8) 25 [((0, 0, 0), "a"), ((10, 10, 10), "b")]
      = some (2, ((10, 10, 10), "b")) := by decide
example :
    classifyTolerant (8, 8, 8) 10 [((0, 0, 0), "a"), ((10, 10, 10), "b")]
      = "b" := by decide
example :
    classifyTolerant (200, 8, 8) 10 [((0, 0, 0), "a"), ((10, 10, 10), "b")]
      = "soil_low" := by decide
example :
    (generateSaveData 128 192 [] {}).map (fun sm => (sm.width, sm.height))
      = Except.ok (2, 3) := rfl
example : cropDims 130 70 = Except.ok (128, 64) := rfl
example : (cropDims 63 64).isOk = false := by decide
example : classifyPixel [("FFFFFF", "sand")] [] "FFFFFF" = ("sand", []) := by
  decide
example :
    classifyPixel [("FFFFFF", "sand")] [] "000000"
      = ("soil_low", [("000000", 1)]) := by decide

/-! ## Lemmas: catalog membership and the ordinal/entry correspondence -/

theorem mem_foldl_jsSetAdd (l acc : List String) (x : String) :
    x ∈ l.foldl jsSetAdd acc ↔ x ∈ acc ∨ x ∈ l := by
  induction l generalizing acc with
  | nil => simp
  | cons y ys ih =>
    rw [List.foldl_cons, ih]
    unfold jsSetAdd
    by_cases h : y ∈ acc
    · simp only [if_pos h, List.mem_cons]
      constructor
      · tauto
      · rintro (hx | rfl | hx) <;> tauto
    · simp only [if_neg h, List.mem_append, List.mem_singleton, List.mem_cons]
      tauto

theorem mem_foldl_rows (tiles : List (List String)) (acc : List String)
    (x : String) :
    x ∈ tiles.foldl (fun acc row => row.foldl jsSetAdd acc) acc ↔
      x ∈ acc ∨ ∃ row ∈ tiles, x ∈ row := by
  induction tiles generalizing acc with
  | nil => simp
  | cons r rs ih =>
    rw [List.foldl_cons, ih, mem_foldl_jsSetAdd]
    simp only [List.mem_cons]
    constructor
    · rintro ((h | h) | ⟨row, hr, hx⟩)
      · exact Or.inl h
      · exact Or.inr ⟨r, Or.inl rfl, h⟩
      · exact Or.inr ⟨row, Or.inr hr, hx⟩
    · rintro (h | ⟨row, rfl | hr, hx⟩)
      · exact Or.inl (Or.inl h)
      · exact Or.inl (Or.inr hx)
      · exact Or.inr ⟨row, hr, hx⟩

theorem mem_buildTileMap (tiles : List (List String)) (x : String) :
    x ∈ buildTileMap tiles ↔ ∃ row ∈ tiles, x ∈ row := by
  rw [buildTileMap, mem_foldl_rows]
  simp

theorem getD_indexOf {cat : List String} {x : String} (h : x ∈ cat) :
    cat.getD (cat.indexOf x) "" = x := by
  rw [List.getD_eq_getElem _ _ (List.indexOf_lt_length.mpr h)]
  exact List.getElem_indexOf _

theorem tileIndex_inj {cat : List String} {x y : String}
    (hx : x ∈ cat) (hy : y ∈ cat) (h : tileIndex cat x = tileIndex cat y) :
    x = y := by
  have := getD_indexOf hx
  rw [tileIndex, tileIndex] at h
  rw [h, getD_indexOf hy] at this
  exact this.symm

/-! ## Lemmas: RLE decoding inverts the row loop -/

theorem decodeRow_rleRowLoop_some (cat : List String) (f : String → Nat)
    (row : List String) (t : String) (n : Nat) (hn : 0 < n)
    (ht : cat.getD (f t) "" = t)
    (hrow : ∀ c ∈ row, cat.getD (f c) "" = c) :
    decodeRow cat (rleRowLoop f row (some t) n).1 (rleRowLoop f row (some t) n).2
      = List.replicate n t ++ row := by
  induction row generalizing t n with
  | nil =>
    rw [rleRowLoop, if_pos hn]
    simp only [decodeRow]
    rw [ht]
  | cons c rest ih =>
    by_cases hct : c = t
    · subst hct
      have hcond : (some c = some c ∧ 0 < n) := ⟨rfl, hn⟩
      rw [rleRowLoop, if_pos hcond]
      rw [ih c (n + 1) (Nat.succ_pos n) ht fun x hx => hrow x (List.mem_cons_of_mem _ hx)]
      rw [List.replicate_succ', List.append_assoc, List.singleton_append]
    · have hcond : ¬(some t = some c ∧ 0 < n) := by
        intro hc
        exact hct (Option.some.inj hc.1).symm
      rw [rleRowLoop, if_neg hcond]
      simp only [if_pos hn]
      rw [decodeRow, ht]
      rw [ih c 1 Nat.one_pos (hrow c (List.mem_cons_self _ _))
        fun x hx => hrow x (List.mem_cons_of_mem _ hx)]
      simp

theorem decodeRow_rleRow (cat : List String) (f : String → Nat)
    (row : List String) (hrow : ∀ c ∈ row, cat.getD (f c) "" = c) :
    decodeRow cat (rleRowLoop f row none 0).1 (rleRowLoop f row none 0).2
      = row := by
  cases row with
  | nil => simp [rleRowLoop, decodeRow]
  | cons c rest =>
    have hstep : rleRowLoop f (c :: rest) none 0 = rleRowLoop f rest (some c) 1 := by
      simp [rleRowLoop]
    rw [hstep, decodeRow_rleRowLoop_some cat f rest c 1 Nat.one_pos
      (hrow c (List.mem_cons_self _ _))
      fun x hx => hrow x (List.mem_cons_of_mem _ hx)]
    simp

theorem decodeRLE_generateRLE (cat : List String) (f : String → Nat)
    (tiles : List (List String))
    (hsec : ∀ row ∈ tiles, ∀ c ∈ row, cat.getD (f c) "" = c) :
    decodeRLE cat (generateRLECompressedTiles f tiles).1
        (generateRLECompressedTiles f tiles).2
      = tiles := by
  unfold decodeRLE generateRLECompressedTiles
  induction tiles with
  | nil => rfl
  | cons r rs ih =>
    simp only [List.map_cons, List.zipWith_cons_cons]
    rw [decodeRow_rleRow _ _ r (hsec r (List.mem_cons_self _ _))]
    rw [ih fun row hr => hsec row (List.mem_cons_of_mem _ hr)]

/-- C1: RLE round-trip — for every dense `height × width` tile grid and the
catalog / index map derived from it by `generateSaveData`, expanding each
`(tileArray ordinal, tileAmounts count)` pair of the output of
`generateRLECompressedTiles` row by row into `count` repetitions of the catalog
entry at that ordinal reproduces the original grid exactly. -/
theorem rle_roundtrip (height width : Nat) (tiles : List (List String))
    (_hh : tiles.length = height) (_hw : ∀ row ∈ tiles, row.length = width) :
    decodeRLE (buildTileMap tiles)
        (generateRLECompressedTiles (tileIndex (buildTileMap tiles)) tiles).1
        (generateRLECompressedTiles (tileIndex (buildTileMap tiles)) tiles).2
      = tiles := by
  have hsec : ∀ row ∈ tiles, ∀ c ∈ row,
      (buildTileMap tiles).getD (tileIndex (buildTileMap tiles) c) "" = c := by
    intro row hr c hc
    exact getD_indexOf ((mem_buildTileMap tiles c).mpr ⟨row, hr, hc⟩)
  exact decodeRLE_generateRLE (buildTileMap tiles) _ tiles hsec

/-- Witness for C1 at a concrete 1×64 grid (63 copies of `"plains"` followed by
one `"ocean"`). -/
theorem rle_roundtrip_witness :
    (List.replicate 63 "plains" ++ ["ocean"] : List String).length = 64 ∧
      decodeRLE (buildTileMap [List.replicate 63 "plains" ++ ["ocean"]])
          (generateRLECompressedTiles
            (tileIndex (buildTileMap [List.replicate 63 "plains" ++ ["ocean"]]))
            [List.replicate 63 "plains" ++ ["ocean"]]).1
          (generateRLECompressedTiles
            (tileIndex (buildTileMap [List.replicate 63 "plains" ++ ["ocean"]]))
            [List.replicate 63 "plains" ++ ["ocean"]]).2
        = [List.replicate 63 "plains" ++ ["ocean"]] :=
  ⟨by decide, rle_roundtrip 1 64 [List.replicate 63 "plains" ++ ["ocean"]]
    (by decide) (by decide)⟩

/-! ## Lemmas: well-formedness of one RLE row -/

theorem rleRowLoop_length_eq (f : String → Nat) (row : List String) :
    ∀ (last : Option String) (count : Nat),
      (rleRowLoop f row last count).1.length
        = (rleRowLoop f row last count).2.length := by
  induction row with
  | nil =>
    intro last count
    cases last with
    | none => rfl
    | some t =>
      rw [rleRowLoop]
      split <;> rfl
  | cons c rest ih =>
    intro last count
    cases last with
    | none =>
      have hstep : rleRowLoop f (c :: rest) none count
          = rleRowLoop f rest (some c) 1 := by
        simp [rleRowLoop]
      rw [hstep]
      exact ih (some c) 1
    | some t =>
      rw [rleRowLoop]
      split
      · exact ih (some t) (count + 1)
      · by_cases hc : 0 < count
        · simp only [if_pos hc, List.length_cons]
          rw [ih (some c) 1]
        · simp only [if_neg hc]
          exact ih (some c) 1

theorem rleRowLoop_sum_some (f : String → Nat) (row : List String) :
    ∀ (t : String) (n : Nat), 0 < n →
      (rleRowLoop f row (some t) n).2.sum = n + row.length := by
  induction row with
  | nil =>
    intro t n hn
    rw [rleRowLoop, if_pos hn]
    simp
  | cons c rest ih =>
    intro t n hn
    rw [rleRowLoop]
    by_cases hct : t = c
    · subst hct
      rw [if_pos ⟨rfl, hn⟩, ih t (n + 1) (Nat.succ_pos n)]
      simp only [List.length_cons]
      omega
    · rw [if_neg fun hc => hct (Option.some.inj hc.1)]
      simp only [if_pos hn, List.sum_cons]
      rw [ih c 1 Nat.one_pos]
      simp only [List.length_cons]
      omega

theorem rleRowLoop_sum_none (f : String → Nat) (row : List String) :
    (rleRowLoop f row none 0).2.sum = row.length := by
  cases row with
  | nil => rfl
  | cons c rest =>
    have hstep : rleRowLoop f (c :: rest) none 0 = rleRowLoop f rest (some c) 1 := by
      simp [rleRowLoop]
    rw [hstep, rleRowLoop_sum_some f rest c 1 Nat.one_pos]
    simp only [List.length_cons]
    omega

theorem rleRowLoop_pos_some (f : String → Nat) (row : List String) :
    ∀ (t : String) (n : Nat), 0 < n →
      ∀ k ∈ (rleRowLoop f row (some t) n).2, 1 ≤ k := by
  induction row with
  | nil =>
    intro t n hn k hk
    rw [rleRowLoop, if_pos hn] at hk
    simp only [List.mem_singleton] at hk
    omega
  | cons c rest ih =>
    intro t n hn k hk
    rw [rleRowLoop] at hk
    by_cases hct : t = c
    · subst hct
      rw [if_pos ⟨rfl, hn⟩] at hk
      exact ih t (n + 1) (Nat.succ_pos n) k hk
    · rw [if_neg fun hc => hct (Option.some.inj hc.1)] at hk
      simp only [if_pos hn, List.mem_cons] at hk
      rcases hk with rfl | hk
      · exact hn
      · exact ih c 1 Nat.one_pos k hk

theorem rleRowLoop_pos_none (f : String → Nat) (row : List String) :
    ∀ k ∈ (rleRowLoop f row none 0).2, 1 ≤ k := by
  cases row with
  | nil => intro k hk; simp [rleRowLoop] at hk
  | cons c rest =>
    have hstep : rleRowLoop f (c :: rest) none 0 = rleRowLoop f rest (some c) 1 := by
      simp [rleRowLoop]
    rw [hstep]
    exact rleRowLoop_pos_some f rest c 1 Nat.one_pos

theorem rleRowLoop_chain_some (f : String → Nat) (row : List String) :
    ∀ (t : String) (n : Nat), 0 < n →
      (∀ x ∈ t :: row, ∀ z ∈ t :: row, f x = f z → x = z) →
      (rleRowLoop f row (some t) n).1.head? = some (f t) ∧
        List.Chain' (fun i j => i ≠ j) (rleRowLoop f row (some t) n).1 := by
  induction row with
  | nil =>
    intro t n hn _
    rw [rleRowLoop, if_pos hn]
    exact ⟨rfl, List.chain'_singleton _⟩
  | cons c rest ih =>
    intro t n hn hinj
    rw [rleRowLoop]
    by_cases hct : t = c
    · subst hct
      rw [if_pos ⟨rfl, hn⟩]
      refine ih t (n + 1) (Nat.succ_pos n) ?_
      intro x hx z hz
      refine hinj x ?_ z ?_ <;>
        simp only [List.mem_cons] at hx hz ⊢ <;> tauto
    · rw [if_neg fun hc => hct (Option.some.inj hc.1)]
      simp only [if_pos hn]
      have hrec := ih c 1 Nat.one_pos ?_
      · refine ⟨rfl, ?_⟩
        rw [List.chain'_cons']
        refine ⟨?_, hrec.2⟩
        intro z hz
        rw [hrec.1] at hz
        simp only [Option.mem_def, Option.some.injEq] at hz
        subst hz
        intro hfc
        exact hct (hinj t (List.mem_cons_self _ _) c
          (List.mem_cons_of_mem _ (List.mem_cons_self _ _)) hfc)
      · intro x hx z hz
        refine hinj x ?_ z ?_ <;>
          simp only [List.mem_cons] at hx hz ⊢ <;> tauto

theorem getD_map_getD (g : List String → List Nat) (tiles : List (List String))
    (y : Nat) (hy : y < tiles.length) :
    (tiles.map g).getD y [] = g (tiles.getD y []) := by
  rw [List.getD_eq_getElem _ _ (by simpa using hy), List.getElem_map,
    List.getD_eq_getElem _ _ hy]

theorem rleRowLoop_chain_none (f : String → Nat) (row : List String)
    (hinj : ∀ x ∈ row, ∀ z ∈ row, f x = f z → x = z) :
    List.Chain' (fun i j => i ≠ j) (rleRowLoop f row none 0).1 := by
  cases row with
  | nil => simp [rleRowLoop]
  | cons c rest =>
    have hstep : rleRowLoop f (c :: rest) none 0 = rleRowLoop f rest (some c) 1 := by
      simp [rleRowLoop]
    rw [hstep]
    exact (rleRowLoop_chain_some f rest c 1 Nat.one_pos hinj).2

/-- The well-formedness properties claim C2 states for the `y`-th row pair of
`generateRLECompressedTiles` run with the catalog-derived index map: equal
lengths, no two adjacent runs with the same tile index, all run lengths ≥ 1,
run lengths summing to the row width, and two empty sequences for a width-0
row. -/
def RLERowWellformed (tiles : List (List String)) (y : Nat) : Prop :=
  ((generateRLECompressedTiles (tileIndex (buildTileMap tiles)) tiles).1.getD y []).length
      = ((generateRLECompressedTiles (tileIndex (buildTileMap tiles)) tiles).2.getD y []).length
    ∧ List.Chain' (fun i j => i ≠ j)
        ((generateRLECompressedTiles (tileIndex (buildTileMap tiles)) tiles).1.getD y [])
    ∧ (∀ k ∈ (generateRLECompressedTiles (tileIndex (buildTileMap tiles)) tiles).2.getD y [],
        1 ≤ k)
    ∧ ((generateRLECompressedTiles (tileIndex (buildTileMap tiles)) tiles).2.getD y []).sum
        = (tiles.getD y []).length
    ∧ ((tiles.getD y []).length = 0 →
        (generateRLECompressedTiles (tileIndex (buildTileMap tiles)) tiles).1.getD y [] = []
          ∧ (generateRLECompressedTiles (tileIndex (buildTileMap tiles)) tiles).2.getD y [] = [])

/-- C2: RLERow well-formedness — every row pair produced by
`generateRLECompressedTiles` with the catalog-derived index map has equal-length
index and length sequences, no two adjacent runs sharing a tile index, every
run length ≥ 1, run lengths summing to the row's width, and a width-0 row
produces two empty sequences. -/
theorem rle_row_wellformed (tiles : List (List String)) (y : Nat)
    (hy : y < tiles.length) : RLERowWellformed tiles y := by
  unfold RLERowWellformed
  have h1 : (generateRLECompressedTiles (tileIndex (buildTileMap tiles)) tiles).1.getD y []
      = (rleRowLoop (tileIndex (buildTileMap tiles)) (tiles.getD y []) none 0).1 := by
    unfold generateRLECompressedTiles
    exact getD_map_getD _ tiles y hy
  have h2 : (generateRLECompressedTiles (tileIndex (buildTileMap tiles)) tiles).2.getD y []
      = (rleRowLoop (tileIndex (buildTileMap tiles)) (tiles.getD y []) none 0).2 := by
    unfold generateRLECompressedTiles
    exact getD_map_getD _ tiles y hy
  have hmem : tiles.getD y [] ∈ tiles := by
    rw [List.getD_eq_getElem _ _ hy]
    exact List.getElem_mem _
  have hinj : ∀ x ∈ tiles.getD y [], ∀ z ∈ tiles.getD y [],
      tileIndex (buildTileMap tiles) x = tileIndex (buildTileMap tiles) z → x = z := by
    intro x hx z hz
    exact tileIndex_inj ((mem_buildTileMap tiles x).mpr ⟨_, hmem, hx⟩)
      ((mem_buildTileMap tiles z).mpr ⟨_, hmem, hz⟩)
  rw [h1, h2]
  refine ⟨rleRowLoop_length_eq _ _ none 0, rleRowLoop_chain_none _ _ hinj,
    rleRowLoop_pos_none _ _, rleRowLoop_sum_none _ _, ?_⟩
  intro h0
  rw [List.length_eq_zero] at h0
  rw [h0]
  exact ⟨rfl, rfl⟩

/-- Witness for C2 at the concrete grid `[["a", "a", "b"]]`, row 0. -/
theorem rle_row_wellformed_witness :
    0 < ([["a", "a", "b"]] : List (List String)).length ∧
      RLERowWellformed [["a", "a", "b"]] 0 :=
  ⟨by decide, rle_row_wellformed [["a", "a", "b"]] 0 (by decide)⟩

/-! ## Lemmas: the catalog lists distinct tiles in first-encounter order -/

theorem buildTileMap_eq_foldl_flatten (tiles : List (List String)) :
    buildTileMap tiles = tiles.flatten.foldl jsSetAdd [] := by
  rw [buildTileMap, List.foldl_flatten]

theorem nodup_foldl_jsSetAdd (l : List String) :
    ∀ acc : List String, acc.Nodup → (l.foldl jsSetAdd acc).Nodup := by
  induction l with
  | nil => exact fun acc h => h
  | cons x xs ih =>
    intro acc h
    rw [List.foldl_cons]
    apply ih
    unfold jsSetAdd
    by_cases hx : x ∈ acc
    · rwa [if_pos hx]
    · rw [if_neg hx, List.nodup_append]
      refine ⟨h, List.nodup_singleton x, ?_⟩
      intro a ha hax
      rw [List.mem_singleton] at hax
      subst hax
      exact hx ha

theorem foldl_jsSetAdd_eq_firstDedup (l : List String) :
    ∀ acc : List String,
      l.foldl jsSetAdd acc = acc ++ firstDedup (l.filter fun x => x ∉ acc) := by
  induction l with
  | nil =>
    intro acc
    simp [firstDedup]
  | cons x xs ih =>
    intro acc
    rw [List.foldl_cons]
    by_cases hx : x ∈ acc
    · rw [show jsSetAdd acc x = acc from if_pos hx, ih acc, List.filter_cons]
      simp [hx]
    · rw [show jsSetAdd acc x = acc ++ [x] from if_neg hx, ih (acc ++ [x])]
      have hcons : ((x :: xs).filter fun z => z ∉ acc)
          = x :: (xs.filter fun z => z ∉ acc) := by
        simp [List.filter_cons, hx]
      rw [hcons, firstDedup]
      have hfilter : (xs.filter fun z => z ∉ acc ++ [x])
          = (xs.filter fun z => z ∉ acc).filter fun z => z ≠ x := by
        rw [List.filter_filter]
        apply List.filter_congr
        intro z _
        rw [← Bool.decide_and, decide_eq_decide]
        simp only [List.mem_append, List.mem_singleton, not_or]
        tauto
      rw [List.append_assoc, List.singleton_append, hfilter]

/-- C3: catalog completeness and order — the `tileMap` built by
`generateSaveData` contains a tile type iff it occurs somewhere in the grid,
contains no duplicates, and equals the distinct tile types of the row-major
(top-to-bottom, left-to-right) scan of the grid in first-encounter order. -/
theorem tileMap_complete_first_encounter (tiles : List (List String)) :
    (∀ x, x ∈ buildTileMap tiles ↔ ∃ row ∈ tiles, x ∈ row)
      ∧ (buildTileMap tiles).Nodup
      ∧ buildTileMap tiles = firstDedup tiles.flatten := by
  refine ⟨mem_buildTileMap tiles, ?_, ?_⟩
  · rw [buildTileMap_eq_foldl_flatten]
    exact nodup_foldl_jsSetAdd _ [] List.nodup_nil
  · rw [buildTileMap_eq_foldl_flatten, foldl_jsSetAdd_eq_firstDedup,
      List.nil_append]
    congr 1
    rw [List.filter_eq_self]
    intro a _
    simp

/-! ## Theorems about `generateSaveData`: validation, zone units, stats -/

/-- C8: save-assembly validation — `generateSaveData` produces a validation
error (and hence no save document) iff at least one tile dimension is not an
exact multiple of 64; when both are multiples it always returns a document. -/
theorem save_validation_iff (tileWidth tileHeight : Nat)
    (tiles : List (List String)) (cfg : StatsConfig) :
    (∃ e, generateSaveData tileWidth tileHeight tiles cfg = Except.error e)
      ↔ (tileWidth % 64 ≠ 0 ∨ tileHeight % 64 ≠ 0) := by
  rw [generateSaveData]
  by_cases h : tileWidth % 64 ≠ 0 ∨ tileHeight % 64 ≠ 0
  · rw [if_pos h]
    exact ⟨fun _ => h, fun _ => ⟨_, rfl⟩⟩
  · rw [if_neg h]
    constructor
    · rintro ⟨e, he⟩
      exact absurd he (by simp)
    · intro hc
      exact absurd hc h

/-- C7: zone conversion — for tile dimensions that are multiples of 64 the
save document stores `width = tileWidth / 64` and `height = tileHeight / 64`
in zone units. -/
theorem zone_conversion (tileWidth tileHeight : Nat)
    (tiles : List (List String)) (cfg : StatsConfig)
    (hw : tileWidth % 64 = 0) (hh : tileHeight % 64 = 0) :
    ∃ sm, generateSaveData tileWidth tileHeight tiles cfg = Except.ok sm
      ∧ sm.width = tileWidth / 64 ∧ sm.height = tileHeight / 64 := by
  have hcond : ¬(tileWidth % 64 ≠ 0 ∨ tileHeight % 64 ≠ 0) := by
    push_neg
    exact ⟨hw, hh⟩
  rw [generateSaveData, if_neg hcond]
  exact ⟨_, rfl, rfl, rfl⟩

/-- Witness for C7: tile dimensions 128×192 yield zone dimensions 2×3. -/
theorem zone_conversion_witness :
    (128 % 64 = 0 ∧ 192 % 64 = 0) ∧
      ∃ sm, generateSaveData 128 192 [] {} = Except.ok sm
        ∧ sm.width = 2 ∧ sm.height = 3 :=
  ⟨⟨rfl, rfl⟩, zone_conversion 128 192 [] {} rfl rfl⟩

/-- C9: world-time conversion — a stats configuration giving `worldTime` as
`m` months is stored as `mapStats.world_time = m * 5 * 60`. -/
theorem world_time_conversion (tileWidth tileHeight : Nat)
    (tiles : List (List String)) (cfg : StatsConfig) (m : Int)
    (hm : cfg.worldTime = some m)
    (hw : tileWidth % 64 = 0) (hh : tileHeight % 64 = 0) :
    ∃ sm, generateSaveData tileWidth tileHeight tiles cfg = Except.ok sm
      ∧ sm.mapStats.world_time = m * 5 * 60 := by
  have hcond : ¬(tileWidth % 64 ≠ 0 ∨ tileHeight % 64 ≠ 0) := by
    push_neg
    exact ⟨hw, hh⟩
  rw [generateSaveData, if_neg hcond]
  refine ⟨_, rfl, ?_⟩
  show jsOrInt cfg.worldTime 0 * 5 * 60 = m * 5 * 60
  rw [hm, jsOrInt]
  by_cases h0 : m = 0
  · rw [if_pos h0, h0]
  · rw [if_neg h0]

/-- Witness for C9 at `worldTime = 7` months on a 64×64 map. -/
theorem world_time_conversion_witness :
    (({ worldTime := some 7 } : StatsConfig).worldTime = some 7
        ∧ 64 % 64 = 0 ∧ 64 % 64 = 0) ∧
      ∃ sm, generateSaveData 64 64 [] { worldTime := some 7 } = Except.ok sm
        ∧ sm.mapStats.world_time = 7 * 5 * 60 :=
  ⟨⟨rfl, rfl, rfl⟩,
    world_time_conversion 64 64 [] { worldTime := some 7 } 7 rfl rfl rfl⟩

/-- C10 counterexample: with all stats fields absent, the save document's
player name is `"The Creator"`, not the empty string the claim states. -/
theorem stats_defaults_counterexample :
    (generateSaveData 64 64 [] {}).map (fun sm => sm.mapStats.player_name)
        = Except.ok "The Creator"
      ∧ "The Creator" ≠ "" :=
  ⟨rfl, by decide⟩

/-- C10 (amended): an absent numeric stats field (population, deaths,
world-time, creatures-born) is recorded as 0, and an absent player name is
recorded as the fixed default `"The Creator"` — not the empty string. -/
theorem stats_defaults (tileWidth tileHeight : Nat)
    (tiles : List (List String)) (cfg : StatsConfig)
    (hw : tileWidth % 64 = 0) (hh : tileHeight % 64 = 0) :
    ∃ sm, generateSaveData tileWidth tileHeight tiles cfg = Except.ok sm
      ∧ (cfg.population = none → sm.mapStats.population = 0)
      ∧ (cfg.deaths = none → sm.mapStats.deaths = 0)
      ∧ (cfg.playerName = none → sm.mapStats.player_name = "The Creator")
      ∧ (cfg.worldTime = none → sm.mapStats.world_time = 0)
      ∧ (cfg.creaturesBorn = none → sm.creaturesBorn = 0) := by
  have hcond : ¬(tileWidth % 64 ≠ 0 ∨ tileHeight % 64 ≠ 0) := by
    push_neg
    exact ⟨hw, hh⟩
  rw [generateSaveData, if_neg hcond]
  refine ⟨_, rfl, ?_, ?_, ?_, ?_, ?_⟩ <;>
    intro habs <;>
    simp [habs, jsOrInt, jsOrString]

/-- Witness for C10 (amended) at the empty stats configuration on a 64×64
map. -/
theorem stats_defaults_witness :
    (64 % 64 = 0 ∧ 64 % 64 = 0) ∧
      ∃ sm, generateSaveData 64 64 [] {} = Except.ok sm
        ∧ (({} : StatsConfig).population = none → sm.mapStats.population = 0)
        ∧ (({} : StatsConfig).deaths = none → sm.mapStats.deaths = 0)
        ∧ (({} : StatsConfig).playerName = none →
            sm.mapStats.player_name = "The Creator")
        ∧ (({} : StatsConfig).worldTime = none → sm.mapStats.world_time = 0)
        ∧ (({} : StatsConfig).creaturesBorn = none → sm.creaturesBorn = 0) :=
  ⟨⟨rfl, rfl⟩, stats_defaults 64 64 [] {} rfl rfl⟩

/-! ## Lemmas: JS `Map.set` / `Map.get` on the unmatched-color tally -/

theorem jsMapGet_jsMapSet_self (m : List (String × Nat)) (k : String) (v : Nat) :
    jsMapGet (jsMapSet m k v) k = some v := by
  induction m with
  | nil => simp [jsMapGet, jsMapSet, List.lookup]
  | cons p rest ih =>
    obtain ⟨a, b⟩ := p
    by_cases hp : a = k
    · rw [jsMapSet, if_pos hp]
      simp [jsMapGet, List.lookup]
    · rw [jsMapSet, if_neg hp]
      have hb : (k == a) = false := by
        simp only [beq_eq_false_iff_ne, ne_eq]
        exact fun hk => hp hk.symm
      simpa [jsMapGet, List.lookup, hb] using ih

theorem jsMapGet_jsMapSet_other (m : List (String × Nat)) (k : String) (v : Nat)
    (k2 : String) (hne : k2 ≠ k) :
    jsMapGet (jsMapSet m k v) k2 = jsMapGet m k2 := by
  have hbk : (k2 == k) = false := by simpa using hne
  induction m with
  | nil => simp [jsMapGet, jsMapSet, List.lookup, hbk]
  | cons p rest ih =>
    obtain ⟨a, b⟩ := p
    by_cases hp : a = k
    · subst hp
      rw [jsMapSet, if_pos rfl]
      simp [jsMapGet, List.lookup, hbk]
    · rw [jsMapSet, if_neg hp]
      simp only [jsMapGet, List.lookup]
      cases hk : k2 == a with
      | true => rfl
      | false => exact ih

/-- C6: unmatched-color fallback — a pixel color absent from the color table
classifies as `"soil_low"` and bumps exactly that color's entry of the
unmatched tally by one (other tallies unchanged), while a matched pixel keeps
its table tile type and leaves the tally untouched. -/
theorem unmatched_color_fallback (colorMap : List (String × String))
    (unmatchedColors : List (String × Nat)) (colorHex : String) :
    (colorMap.lookup colorHex = none →
        (classifyPixel colorMap unmatchedColors colorHex).1 = "soil_low"
        ∧ jsMapGet (classifyPixel colorMap unmatchedColors colorHex).2 colorHex
            = some ((jsMapGet unmatchedColors colorHex).getD 0 + 1)
        ∧ ∀ k, k ≠ colorHex →
            jsMapGet (classifyPixel colorMap unmatchedColors colorHex).2 k
              = jsMapGet unmatchedColors k)
      ∧ (∀ t, colorMap.lookup colorHex = some t → t ≠ "" →
          classifyPixel colorMap unmatchedColors colorHex
            = (t, unmatchedColors)) := by
  constructor
  · intro habs
    rw [classifyPixel, habs]
    exact ⟨rfl, jsMapGet_jsMapSet_self _ _ _,
      fun k hk => jsMapGet_jsMapSet_other _ _ _ k hk⟩
  · intro t ht hne
    rw [classifyPixel, ht]
    simp [hne]

/-! ## C4: the crop computation and the scaling draw call -/

/-- C4: cropping — the dimension computation and the failure condition behave
as claimed (a 130×70 image computes 128×64, a 63×64 image fails with the
size-too-small error), but the pixel retention does not: the code's
5-argument `ctx.drawImage(img, 0, 0, 128, 64)` scales the whole 130-column
source into 128 destination columns, so the retained destination column 64 is
sourced from original column 65 instead of column 64 — the retained pixels are
resampled, contradicting the claim (and the code's own comments) that the
retained pixels are kept without scaling or interpolation. -/
theorem crop_scaling_bug :
    cropDims 130 70 = Except.ok (128, 64)
      ∧ (∃ e, cropDims 63 64 = Except.error e)
      ∧ drawImageSrcCoord 130 128 64 = 65
      ∧ (65 : Nat) ≠ 64 :=
  ⟨rfl, ⟨_, rfl⟩, rfl, by decide⟩

/-! ## Lemmas: the tolerance matcher picks the first in-threshold minimum -/

theorem bestMatch_some_props (q : Nat × Nat × Nat) (thr : Nat)
    (table : List ((Nat × Nat × Nat) × String)) :
    ∀ d e, bestMatch q thr table = some (d, e) →
      e ∈ table ∧ d = colorDist q e.1 ∧ d ≤ thr := by
  induction table with
  | nil => intro d e h; simp [bestMatch] at h
  | cons e0 rest ih =>
    intro d e h
    cases hrest : bestMatch q thr rest with
    | none =>
      simp only [bestMatch, hrest] at h
      by_cases hd0 : colorDist q e0.1 ≤ thr
      · rw [if_pos hd0] at h
        obtain ⟨hd, he⟩ := Prod.mk.injEq .. ▸ Option.some.inj h
        subst he
        exact ⟨List.mem_cons_self _ _, hd.symm, hd ▸ hd0⟩
      · rw [if_neg hd0] at h
        exact absurd h (by simp)
    | some p =>
      obtain ⟨d2, e2⟩ := p
      simp only [bestMatch, hrest] at h
      by_cases hcond : colorDist q e0.1 ≤ thr ∧ colorDist q e0.1 ≤ d2
      · rw [if_pos hcond] at h
        obtain ⟨hd, he⟩ := Prod.mk.injEq .. ▸ Option.some.inj h
        subst he
        exact ⟨List.mem_cons_self _ _, hd.symm, hd ▸ hcond.1⟩
      · rw [if_neg hcond] at h
        obtain ⟨hd, he⟩ := Prod.mk.injEq .. ▸ Option.some.inj h
        subst he
        obtain ⟨hmem, hdist, hthr⟩ := ih d2 e2 hrest
        exact ⟨List.mem_cons_of_mem _ hmem, hd ▸ hdist, hd ▸ hthr⟩

theorem bestMatch_none_iff (q : Nat × Nat × Nat) (thr : Nat)
    (table : List ((Nat × Nat × Nat) × String)) :
    bestMatch q thr table = none ↔ ∀ e ∈ table, thr < colorDist q e.1 := by
  induction table with
  | nil => simp [bestMatch]
  | cons e0 rest ih =>
    cases hrest : bestMatch q thr rest with
    | none =>
      simp only [bestMatch, hrest]
      by_cases hd0 : colorDist q e0.1 ≤ thr
      · rw [if_pos hd0]
        simp only [List.mem_cons]
        constructor
        · intro h
          exact absurd h (by simp)
        · intro hall
          exact absurd hd0 (not_le.mpr (hall e0 (Or.inl rfl)))
      · rw [if_neg hd0]
        simp only [List.mem_cons, true_iff]
        intro e he
        rcases he with rfl | he
        · exact not_le.mp hd0
        · exact (ih.mp hrest) e he
    | some p =>
      obtain ⟨d2, e2⟩ := p
      simp only [bestMatch, hrest]
      constructor
      · intro h
        split at h <;> exact absurd h (by simp)
      · intro hall
        obtain ⟨hmem, hdist, hthr⟩ := bestMatch_some_props q thr rest d2 e2 hrest
        exact absurd hthr
          (not_le.mpr (hdist ▸ hall e2 (List.mem_cons_of_mem _ hmem)))

theorem bestMatch_min (q : Nat × Nat × Nat) (thr : Nat)
    (table : List ((Nat × Nat × Nat) × String)) :
    ∀ d e, bestMatch q thr table = some (d, e) →
      ∀ e2 ∈ table, colorDist q e2.1 ≤ thr → d ≤ colorDist q e2.1 := by
  induction table with
  | nil => intro d e h; simp [bestMatch] at h
  | cons e0 rest ih =>
    intro d e h e2 he2 hthr2
    cases hrest : bestMatch q thr rest with
    | none =>
      simp only [bestMatch, hrest] at h
      by_cases hd0 : colorDist q e0.1 ≤ thr
      · rw [if_pos hd0] at h
        obtain ⟨hd, _⟩ := Prod.mk.injEq .. ▸ Option.some.inj h
        rcases List.mem_cons.mp he2 with rfl | he2
        · exact hd ▸ le_refl _
        · exact absurd hthr2
            (not_le.mpr ((bestMatch_none_iff q thr rest).mp hrest e2 he2))
      · rw [if_neg hd0] at h
        exact absurd h (by simp)
    | some p =>
      obtain ⟨d2, e2'⟩ := p
      simp only [bestMatch, hrest] at h
      by_cases hcond : colorDist q e0.1 ≤ thr ∧ colorDist q e0.1 ≤ d2
      · rw [if_pos hcond] at h
        obtain ⟨hd, _⟩ := Prod.mk.injEq .. ▸ Option.some.inj h
        subst hd
        rcases List.mem_cons.mp he2 with rfl | he2
        · exact le_refl _
        · exact le_trans hcond.2 (ih d2 e2' hrest e2 he2 hthr2)
      · rw [if_neg hcond] at h
        obtain ⟨hd, _⟩ := Prod.mk.injEq .. ▸ Option.some.inj h
        subst hd
        rcases List.mem_cons.mp he2 with rfl | he2
        · push_neg at hcond
          exact le_of_lt (hcond hthr2)
        · exact ih d2 e2' hrest e2 he2 hthr2

theorem bestMatch_first (q : Nat × Nat × Nat) (thr : Nat)
    (table : List ((Nat × Nat × Nat) × String)) :
    ∀ d e, bestMatch q thr table = some (d, e) →
      ∃ pre post, table = pre ++ e :: post
        ∧ ∀ e2 ∈ pre, colorDist q e2.1 ≤ thr → d < colorDist q e2.1 := by
  induction table with
  | nil => intro d e h; simp [bestMatch] at h
  | cons e0 rest ih =>
    intro d e h
    cases hrest : bestMatch q thr rest with
    | none =>
      simp only [bestMatch, hrest] at h
      by_cases hd0 : colorDist q e0.1 ≤ thr
      · rw [if_pos hd0] at h
        obtain ⟨_, he⟩ := Prod.mk.injEq .. ▸ Option.some.inj h
        subst he
        exact ⟨[], rest, rfl, by simp⟩
      · rw [if_neg hd0] at h
        exact absurd h (by simp)
    | some p =>
      obtain ⟨d2, e2'⟩ := p
      simp only [bestMatch, hrest] at h
      by_cases hcond : colorDist q e0.1 ≤ thr ∧ colorDist q e0.1 ≤ d2
      · rw [if_pos hcond] at h
        obtain ⟨_, he⟩ := Prod.mk.injEq .. ▸ Option.some.inj h
        subst he
        exact ⟨[], rest, rfl, by simp⟩
      · rw [if_neg hcond] at h
        obtain ⟨hd, he⟩ := Prod.mk.injEq .. ▸ Option.some.inj h
        subst he
        subst hd
        obtain ⟨pre, post, heq, hpre⟩ := ih d2 e2' hrest
        refine ⟨e0 :: pre, post, by rw [heq, List.cons_append], ?_⟩
        intro e2 he2 hthr2
        rcases List.mem_cons.mp he2 with rfl | he2
        · push_neg at hcond
          exact hcond hthr2
        · exact hpre e2 he2 hthr2

/-- The property claim C5 states for the tolerance matcher on query `q`,
table `table` and tolerance `t`: `none` exactly when every entry is beyond the
threshold, and in that case the default `"soil_low"`; otherwise the returned
entry is an in-threshold table entry of minimum distance, every strictly
earlier entry within the threshold having strictly greater distance (first
encountered wins), and its tile type is the classification result. -/
def ToleranceMatchSpec (q : Nat × Nat × Nat)
    (table : List ((Nat × Nat × Nat) × String)) (t : Nat) : Prop :=
  (bestMatch q (toleranceThreshold t) table = none ↔
      ∀ e ∈ table, toleranceThreshold t < colorDist q e.1)
    ∧ (bestMatch q (toleranceThreshold t) table = none →
        classifyTolerant q t table = "soil_low")
    ∧ (∀ d e, bestMatch q (toleranceThreshold t) table = some (d, e) →
        e ∈ table ∧ d = colorDist q e.1 ∧ d ≤ toleranceThreshold t
          ∧ (∀ e2 ∈ table, colorDist q e2.1 ≤ toleranceThreshold t →
              d ≤ colorDist q e2.1)
          ∧ (∃ pre post, table = pre ++ e :: post
              ∧ ∀ e2 ∈ pre, colorDist q e2.1 ≤ toleranceThreshold t →
                  d < colorDist q e2.1)
          ∧ classifyTolerant q t table = e.2)

/-- C5 (modelled from the spec, whose tolerance-matching code revision is not
in this snapshot): for tolerance `0 < t ≤ 100` and a query color with no exact
match, the classifier computes a distance to every table entry over the 0–255
range scaled by `t`, returns the entry of minimum in-threshold distance with
ties broken by table iteration order (first encountered wins), and falls back
to the default exactly when no entry is within the threshold. -/
theorem tolerance_matching (q : Nat × Nat × Nat)
    (table : List ((Nat × Nat × Nat) × String)) (t : Nat)
    (_ht0 : 0 < t) (_ht100 : t ≤ 100) : ToleranceMatchSpec q table t := by
  refine ⟨bestMatch_none_iff q _ table, ?_, ?_⟩
  · intro h
    rw [classifyTolerant, h]
  · intro d e h
    obtain ⟨hmem, hdist, hthr⟩ := bestMatch_some_props q _ table d e h
    exact ⟨hmem, hdist, hthr, bestMatch_min q _ table d e h,
      bestMatch_first q _ table d e h, by rw [classifyTolerant, h]⟩

/-- Witness for C5 at tolerance 10 on a two-entry table. -/
theorem tolerance_matching_witness :
    (0 < 10 ∧ 10 ≤ 100) ∧
      ToleranceMatchSpec (8, 8, 8) [((0, 0, 0), "a"), ((10, 10, 10), "b")] 10 :=
  ⟨⟨by decide, by decide⟩,
    tolerance_matching (8, 8, 8) [((0, 0, 0), "a"), ((10, 10, 10), "b")] 10
      (by decide) (by decide)⟩

end WbMap
